import Mathlib

/-!
Verification of the koordinator elastic-quota scheduler plugin
(pkg/scheduler/plugins/elasticquota/plugin.go) against its design
specification. Resource vectors are shallowly embedded as association
lists from resource names to integer quantities, mirroring the
Kubernetes ResourceList maps and the quota helper functions the plugin
calls (quotav1.Add, quotav1.SubtractWithNonNegativeResult,
quotav1.LessThanOrEqual). Components of the repository that are not
part of the plugin file (the core.GroupQuotaManager operations, the
revoke controller, name resolution) are modelled from the
specification and marked as such in their doc comments.
-/

namespace ElasticQuota

abbrev ResourceName := String

/-- A resource vector: finitely many named integer quantities, absent
entries read as zero.  Mirrors corev1.ResourceList. -/
abbrev ResourceList := List (ResourceName × Int)

/-- Value of resource r in the vector, zero when absent. -/
def lookupRL (rl : ResourceList) (r : ResourceName) : Int :=
  match rl.find? (fun kv => kv.1 == r) with
  | some kv => kv.2
  | none => 0

/-- The resource names present in the vector. -/
def keysRL (rl : ResourceList) : List ResourceName :=
  rl.map Prod.fst

/-- Build a vector over an explicit key list from a value function. -/
def buildRL (ks : List ResourceName) (f : ResourceName → Int) : ResourceList :=
  ks.map (fun k => (k, f k))

/-- quotav1.Add: keys are the union of both operands, values are the sums. -/
def addRL (a b : ResourceList) : ResourceList :=
  buildRL ((keysRL a ++ keysRL b).dedup) (fun k => lookupRL a k + lookupRL b k)

/-- quotav1.SubtractWithNonNegativeResult: per-dimension difference
floored at zero, over the union of keys. -/
def subNonNegRL (a b : ResourceList) : ResourceList :=
  buildRL ((keysRL a ++ keysRL b).dedup) (fun k => max (lookupRL a k - lookupRL b k) 0)

/-- The exceeded dimensions computed by quotav1.LessThanOrEqual(a, b):
it iterates the keys of a, and a key is exceeded when b declares the
key with a smaller value; keys absent from b are skipped, so b never
constrains a dimension it does not declare. -/
def rlExceeded (a b : ResourceList) : List ResourceName :=
  (keysRL a).dedup.filter (fun k =>
    (keysRL b).contains k && decide (lookupRL b k < lookupRL a k))

/-- quotav1.LessThanOrEqual returns the verdict with the exceeded dimensions. -/
def lessThanOrEqualRL (a b : ResourceList) : Bool × List ResourceName :=
  ((rlExceeded a b).isEmpty, rlExceeded a b)

/-- All stored quantities are non-negative (the normal state of
Kubernetes resource quantities). -/
def RLNonneg (rl : ResourceList) : Prop :=
  ∀ kv ∈ rl, 0 ≤ kv.2

instance (rl : ResourceList) : Decidable (RLNonneg rl) := by
  unfold RLNonneg; infer_instance

/-- a dominates b: for every key of b, the value in a is at least the
value in b. -/
def RLDominates (a b : ResourceList) : Prop :=
  ∀ k ∈ keysRL b, lookupRL b k ≤ lookupRL a k

instance (a b : ResourceList) : Decidable (RLDominates a b) := by
  unfold RLDominates; infer_instance

theorem lookupRL_eq_zero_of_not_mem {rl : ResourceList} {r : ResourceName}
    (h : r ∉ keysRL rl) : lookupRL rl r = 0 := by
  unfold lookupRL
  induction rl with
  | nil => rfl
  | cons kv tl ih =>
    simp only [keysRL, List.map_cons, List.mem_cons, not_or] at h
    simp only [List.find?]
    have hne : (kv.1 == r) = false := by
      simp only [beq_eq_false_iff_ne, ne_eq]
      exact fun he => h.1 (by simp [he])
    rw [hne]
    exact ih (by simpa [keysRL] using h.2)

theorem lookupRL_buildRL (ks : List ResourceName) (f : ResourceName → Int)
    (r : ResourceName) :
    lookupRL (buildRL ks f) r = if r ∈ ks then f r else 0 := by
  induction ks with
  | nil => rfl
  | cons k tl ih =>
    by_cases hk : k = r
    · subst hk
      simp [buildRL, lookupRL, List.find?]
    · have hne : (k == r) = false := by simpa using hk
      have hstep : lookupRL (buildRL (k :: tl) f) r = lookupRL (buildRL tl f) r := by
        simp [buildRL, lookupRL, List.find?, hne]
      rw [hstep, ih]
      have hrk : ¬ r = k := fun he => hk he.symm
      simp [List.mem_cons, hrk]

theorem mem_of_lookupRL_ne_zero {rl : ResourceList} {r : ResourceName}
    (h : lookupRL rl r ≠ 0) : r ∈ keysRL rl := by
  by_contra hmem
  exact h (lookupRL_eq_zero_of_not_mem hmem)

theorem lookupRL_addRL (a b : ResourceList) (r : ResourceName) :
    lookupRL (addRL a b) r = lookupRL a r + lookupRL b r := by
  unfold addRL
  rw [lookupRL_buildRL]
  by_cases h : r ∈ (keysRL a ++ keysRL b).dedup
  · simp [h]
  · rw [if_neg h]
    rw [List.mem_dedup, List.mem_append, not_or] at h
    rw [lookupRL_eq_zero_of_not_mem h.1, lookupRL_eq_zero_of_not_mem h.2]
    simp

theorem lookupRL_subNonNegRL (a b : ResourceList) (r : ResourceName) :
    lookupRL (subNonNegRL a b) r = max (lookupRL a r - lookupRL b r) 0 := by
  unfold subNonNegRL
  rw [lookupRL_buildRL]
  by_cases h : r ∈ (keysRL a ++ keysRL b).dedup
  · simp [h]
  · rw [if_neg h]
    rw [List.mem_dedup, List.mem_append, not_or] at h
    rw [lookupRL_eq_zero_of_not_mem h.1, lookupRL_eq_zero_of_not_mem h.2]
    simp

theorem RLNonneg.lookup {rl : ResourceList} (h : RLNonneg rl) (r : ResourceName) :
    0 ≤ lookupRL rl r := by
  unfold lookupRL
  cases hf : rl.find? (fun kv => kv.1 == r) with
  | none => exact le_refl 0
  | some kv => exact h kv (List.mem_of_find?_eq_some hf)

theorem RLNonneg.addRL {a b : ResourceList} (ha : RLNonneg a) (hb : RLNonneg b) :
    RLNonneg (addRL a b) := by
  intro kv hkv
  simp only [ElasticQuota.addRL, buildRL, List.mem_map] at hkv
  obtain ⟨k, _, hk⟩ := hkv
  rw [← hk]
  exact add_nonneg (ha.lookup k) (hb.lookup k)

theorem RLNonneg.subNonNegRL (a b : ResourceList) : RLNonneg (subNonNegRL a b) := by
  intro kv hkv
  simp only [ElasticQuota.subNonNegRL, buildRL, List.mem_map] at hkv
  obtain ⟨k, _, hk⟩ := hkv
  rw [← hk]
  exact le_max_right _ _

theorem mem_rlExceeded {a b : ResourceList} (hb : RLNonneg b) (k : ResourceName) :
    k ∈ rlExceeded a b ↔ k ∈ keysRL b ∧ lookupRL b k < lookupRL a k := by
  unfold rlExceeded
  rw [List.mem_filter, List.mem_dedup]
  constructor
  · rintro ⟨hmem, hcond⟩
    rw [Bool.and_eq_true] at hcond
    refine ⟨?_, of_decide_eq_true hcond.2⟩
    simpa [List.contains_iff_exists_mem_beq] using hcond.1
  · rintro ⟨hkb, hlt⟩
    have hka : k ∈ keysRL a := by
      apply mem_of_lookupRL_ne_zero
      intro hz
      rw [hz] at hlt
      exact absurd (hb.lookup k) (not_le_of_lt hlt)
    refine ⟨hka, ?_⟩
    rw [Bool.and_eq_true]
    exact ⟨by simpa [List.contains_iff_exists_mem_beq] using hkb, decide_eq_true hlt⟩

theorem rlExceeded_eq_nil_iff {a b : ResourceList} (hb : RLNonneg b) :
    rlExceeded a b = [] ↔ ∀ k ∈ keysRL b, lookupRL a k ≤ lookupRL b k := by
  rw [List.eq_nil_iff_forall_not_mem]
  constructor
  · intro h k hk
    by_contra hlt
    exact h k ((mem_rlExceeded hb k).mpr ⟨hk, lt_of_not_le hlt⟩)
  · intro h k hk
    obtain ⟨hkb, hlt⟩ := (mem_rlExceeded hb k).mp hk
    exact absurd (h k hkb) (not_le_of_lt hlt)

/-- A workload (pod): identity, optional tenant label, request vector,
and whether it is a reservation pod (reservationutil.IsReservePod). -/
structure Pod where
  name : String
  quotaLabel : Option String
  request : ResourceList
  isReservePod : Bool
deriving DecidableEq

/-- A quota group node (core.QuotaInfo): tree link by parent name,
accounting vectors, and the set of tracked pod names backing
QuotaInfo.IsPodExist. -/
structure QuotaInfo where
  name : String
  parentName : Option String
  quotaMin : ResourceList
  quotaMax : ResourceList
  used : ResourceList
  request : ResourceList
  runtime : ResourceList
  pods : List String
deriving DecidableEq

/-- QuotaInfo.IsPodExist: whether the quota currently tracks the pod. -/
def isPodExist (q : QuotaInfo) (p : Pod) : Bool :=
  q.pods.contains p.name

/-- The shared quota tree (core.GroupQuotaManager): a name-keyed arena
of quota groups, per the spec design note on tree representation. -/
structure GroupQuotaManager where
  quotas : List (String × QuotaInfo)
deriving DecidableEq

/-- First binding of a name in the arena list. -/
def lookupEntry : List (String × QuotaInfo) → String → Option QuotaInfo
  | [], _ => none
  | kv :: tl, n => if kv.1 == n then some kv.2 else lookupEntry tl n

/-- Name lookup in the shared tree. -/
def lookupQuota (gqm : GroupQuotaManager) (n : String) : Option QuotaInfo :=
  lookupEntry gqm.quotas n

/-- Apply f to the quota group named n, leaving the rest untouched. -/
def updateQuota (gqm : GroupQuotaManager) (n : String) (f : QuotaInfo → QuotaInfo) :
    GroupQuotaManager :=
  ⟨gqm.quotas.map (fun kv => if kv.1 == n then (kv.1, f kv.2) else kv)⟩

/-- The chain of quota names from the given name up through its parents,
bounded by fuel so that malformed (cyclic) parent links terminate. -/
def quotaNameChain (gqm : GroupQuotaManager) : Nat → String → List String
  | 0, _ => []
  | fuel + 1, n =>
    n :: (match lookupQuota gqm n with
      | some q =>
        match q.parentName with
        | some p => quotaNameChain gqm fuel p
        | none => []
      | none => [])

/-- Plugin configuration (config.ElasticQuotaArgs): the strict ancestor
checking flag EnableCheckParentQuota, and the strict-mode switch of
the quota-not-found fallback policy of spec section 7. -/
structure PluginArgs where
  enableCheckParentQuota : Bool
  strictMode : Bool
deriving DecidableEq

/-- Scheduler framework status outcomes relevant to the plugin:
Success, Unschedulable carrying the exceeded dimensions it names, and
Error with a message. -/
inductive Status where
  | success : Status
  | unschedulable : List ResourceName → Status
  | statusError : String → Status
deriving DecidableEq

/-- The per-scheduling-attempt snapshot stored in cycle state
(PostFilterState in plugin.go). -/
structure PostFilterState where
  quotaInfo : QuotaInfo
  used : ResourceList
  runtime : ResourceList
deriving DecidableEq

/-- Modelled from the spec: workload-to-quota-label resolution
(getPodAssociateQuotaName, not under src; the resolution policy is an
external interface per section 1, and unlabeled workloads belong to
the default tenant per section 4.5). -/
def getPodAssociateQuotaName (p : Pod) : String :=
  p.quotaLabel.getD "default"

/-- Modelled from the spec: core.GroupQuotaManager.GetQuotaInfoByName
(not under src) returns the named snapshot, or resolves an absent name
to the default tenant per the fallback policy of sections 4.1 and 7,
unless strict mode is configured. -/
def getQuotaInfoByName (strictMode : Bool) (gqm : GroupQuotaManager) (n : String) :
    Option QuotaInfo :=
  match lookupQuota gqm n with
  | some q => some q
  | none => if strictMode then none else lookupQuota gqm "default"

/-- Modelled from the spec: core.GroupQuotaManager.RefreshRuntime (not
under src) recomputes the Runtime vectors along the path from the
named group to the root; the runtime calculator itself is abstracted
as the parameter rcalc, since only the fact that RefreshRuntime touches
nothing but Runtime matters to the admission claims. -/
def refreshRuntime (rcalc : QuotaInfo → ResourceList) (gqm : GroupQuotaManager)
    (n : String) : GroupQuotaManager :=
  (quotaNameChain gqm (gqm.quotas.length + 1) n).foldl
    (fun g m => updateQuota g m (fun q => { q with runtime := rcalc q })) gqm

/-- Modelled from the spec: snapshotPostFilterState (not under src)
snapshots the resolved quota group with its Used and Runtime vectors
into the scheduling attempt's cycle state. -/
def snapshotPostFilterState (q : QuotaInfo) : PostFilterState :=
  ⟨q, q.used, q.runtime⟩

/-- The quota groups strictly above the named group (parents first). -/
def ancestorsOf (gqm : GroupQuotaManager) (n : String) : List QuotaInfo :=
  match lookupQuota gqm n with
  | none => []
  | some q =>
    match q.parentName with
    | none => []
    | some p =>
      (quotaNameChain gqm (gqm.quotas.length + 1) p).filterMap (lookupQuota gqm)

/-- Check used plus request against Runtime on each group of the list,
returning the first failure. -/
def checkQuotaList (req : ResourceList) : List QuotaInfo → Status
  | [] => .success
  | q :: rest =>
    let ex := rlExceeded (addRL req q.used) q.runtime
    if ex = [] then checkQuotaList req rest else .unschedulable ex

/-- Modelled from the spec: checkQuotaRecursive (not under src) repeats
the used-plus-request-against-Runtime admission check up each ancestor
quota of the named group. -/
def checkQuotaRecursive (gqm : GroupQuotaManager) (n : String) (req : ResourceList) :
    Status :=
  checkQuotaList req (ancestorsOf gqm n)

/-- Everything Plugin.PreFilter produces: the shared tree after the
RefreshRuntime call, the snapshot written to cycle state, and the
returned status. -/
structure PreFilterOutcome where
  gqm : GroupQuotaManager
  state : Option PostFilterState
  status : Status
deriving DecidableEq

/-- Plugin.PreFilter: resolve the pod's quota, refresh its runtime,
snapshot the quota into cycle state, and admit the pod only when the
snapshot Used plus the pod request stays within the snapshot Runtime
in every dimension (recursing up the ancestors when
EnableCheckParentQuota is set). -/
def preFilter (args : PluginArgs) (rcalc : QuotaInfo → ResourceList)
    (gqm : GroupQuotaManager) (p : Pod) : PreFilterOutcome :=
  let quotaName := getPodAssociateQuotaName p
  let gqmR := refreshRuntime rcalc gqm quotaName
  match getQuotaInfoByName args.strictMode gqmR quotaName with
  | none => ⟨gqmR, none, .statusError "Could not find the specified ElasticQuota"⟩
  | some qi =>
    let st := snapshotPostFilterState qi
    let used := addRL p.request st.used
    let ex := rlExceeded used st.runtime
    if ex.isEmpty then
      if args.enableCheckParentQuota then
        ⟨gqmR, some st, checkQuotaRecursive gqmR quotaName p.request⟩
      else
        ⟨gqmR, some st, .success⟩
    else
      ⟨gqmR, some st, .unschedulable ex⟩

/-- The state a scheduling attempt can touch: the shared tree plus the
per-attempt cycle-state snapshot. -/
structure SchedContext where
  gqm : GroupQuotaManager
  state : PostFilterState
deriving DecidableEq

/-- Plugin.AddPod: evaluating the impact of hypothetically adding a pod
while scheduling; reservation pods and pods the snapshot quota does
not track are ignored, otherwise the pod request is added to the
per-attempt used vector. -/
def addPod (ctx : SchedContext) (p : Pod) : SchedContext × Status :=
  if p.isReservePod then (ctx, .success)
  else if isPodExist ctx.state.quotaInfo p then
    ({ ctx with state := { ctx.state with used := addRL ctx.state.used p.request } },
      .success)
  else (ctx, .success)

/-- Plugin.RemovePod: evaluating the impact of hypothetically removing
a pod; mirrors AddPod but subtracts with the zero floor
(quotav1.SubtractWithNonNegativeResult). -/
def removePod (ctx : SchedContext) (p : Pod) : SchedContext × Status :=
  if p.isReservePod then (ctx, .success)
  else if isPodExist ctx.state.quotaInfo p then
    ({ ctx with state := { ctx.state with used := subNonNegRL ctx.state.used p.request } },
      .success)
  else (ctx, .success)

/-- Modelled from the spec: core.GroupQuotaManager.ReservePod (not
under src) is an idempotent add of the workload request onto Used and
Request, recording the assignment. -/
def reservePod (gqm : GroupQuotaManager) (n : String) (p : Pod) : GroupQuotaManager :=
  updateQuota gqm n (fun q =>
    if q.pods.contains p.name then q
    else { q with
      used := addRL q.used p.request
      request := addRL q.request p.request
      pods := p.name :: q.pods })

/-- Modelled from the spec: core.GroupQuotaManager.UnreservePod (not
under src) inverts ReservePod, subtracting with the zero floor, a
no-op when the workload is not tracked. -/
def unreservePod (gqm : GroupQuotaManager) (n : String) (p : Pod) : GroupQuotaManager :=
  updateQuota gqm n (fun q =>
    if q.pods.contains p.name then
      { q with
        used := subNonNegRL q.used p.request
        request := subNonNegRL q.request p.request
        pods := q.pods.erase p.name }
    else q)

/-- Plugin.Reserve: commit the pod into the shared Used of its quota. -/
def reserve (gqm : GroupQuotaManager) (p : Pod) : GroupQuotaManager :=
  reservePod gqm (getPodAssociateQuotaName p) p

/-- Plugin.Unreserve: roll the pod back out of the shared Used. -/
def unreserve (gqm : GroupQuotaManager) (p : Pod) : GroupQuotaManager :=
  unreservePod gqm (getPodAssociateQuotaName p) p

theorem lookupQuota_updateQuota_map {α : Type} (π : QuotaInfo → α)
    (f : QuotaInfo → QuotaInfo) (hf : ∀ q, π (f q) = π q)
    (g : GroupQuotaManager) (n m : String) :
    (lookupQuota (updateQuota g n f) m).map π = (lookupQuota g m).map π := by
  obtain ⟨l⟩ := g
  induction l with
  | nil => rfl
  | cons kv tl ih =>
    obtain ⟨k, q⟩ := kv
    simp only [updateQuota, lookupQuota, List.map_cons] at *
    by_cases hm : k = m
    · subst hm
      by_cases hn : k = n
      · subst hn
        simp [lookupEntry, hf]
      · simp [lookupEntry, hn]
    · by_cases hn : k = n
      · subst hn
        simpa [lookupEntry, hm] using ih
      · simpa [lookupEntry, hm, hn] using ih

theorem lookupQuota_updateQuota_self (f : QuotaInfo → QuotaInfo)
    (g : GroupQuotaManager) (n : String) :
    lookupQuota (updateQuota g n f) n = (lookupQuota g n).map f := by
  obtain ⟨l⟩ := g
  induction l with
  | nil => rfl
  | cons kv tl ih =>
    obtain ⟨k, q⟩ := kv
    simp only [updateQuota, lookupQuota, List.map_cons] at *
    by_cases hn : k = n
    · subst hn
      simp [lookupEntry]
    · simpa [lookupEntry, hn] using ih

theorem lookupQuota_refreshRuntime_map {α : Type} (π : QuotaInfo → α)
    (hπ : ∀ q rl, π { q with runtime := rl } = π q)
    (rcalc : QuotaInfo → ResourceList) (gqm : GroupQuotaManager) (n m : String) :
    (lookupQuota (refreshRuntime rcalc gqm n) m).map π = (lookupQuota gqm m).map π := by
  unfold refreshRuntime
  generalize (quotaNameChain gqm (gqm.quotas.length + 1) n) = chain
  induction chain generalizing gqm with
  | nil => rfl
  | cons c rest ih =>
    rw [List.foldl_cons]
    rw [ih]
    exact lookupQuota_updateQuota_map π _ (fun q => hπ q (rcalc q)) gqm c m

/-- PreFilter leaves the shared tree equal to the tree right after its
RefreshRuntime call, whatever the admission outcome. -/
theorem preFilter_gqm_eq (args : PluginArgs) (rcalc : QuotaInfo → ResourceList)
    (gqm : GroupQuotaManager) (p : Pod) :
    (preFilter args rcalc gqm p).gqm
      = refreshRuntime rcalc gqm (getPodAssociateQuotaName p) := by
  unfold preFilter
  dsimp only
  split
  · rfl
  · split
    · split <;> rfl
    · rfl

/-- Concrete fixtures for the witnesses and counterexamples below. -/
def podW : Pod := ⟨"w", some "t", [("cpu", 5)], false⟩

def pod5 : Pod := ⟨"p5", some "t", [("cpu", 5)], false⟩

def pod10 : Pod := ⟨"p10", some "t", [("cpu", 10)], false⟩

def podRes : Pod := ⟨"rp", some "t", [("cpu", 1)], true⟩

def quotaRootFix : QuotaInfo :=
  ⟨"root", none, [], [("cpu", 200)], [("cpu", 45)], [("cpu", 45)], [("cpu", 48)], []⟩

def quotaTFix : QuotaInfo :=
  ⟨"t", some "root", [], [("cpu", 100)], [("cpu", 45)], [("cpu", 45)], [("cpu", 50)], ["w"]⟩

def quotaDefaultFix : QuotaInfo :=
  ⟨"default", some "root", [], [("cpu", 100)], [], [], [("cpu", 10)], []⟩

def gqmT : GroupQuotaManager :=
  ⟨[("root", quotaRootFix), ("t", quotaTFix), ("default", quotaDefaultFix)]⟩

def idCalc : QuotaInfo → ResourceList := fun q => q.runtime

def ctxT : SchedContext := ⟨gqmT, snapshotPostFilterState quotaTFix⟩

def ctxZero : SchedContext := ⟨gqmT, ⟨quotaTFix, [("cpu", 0)], [("cpu", 50)]⟩⟩

/-- Claim C2: PreFilter never mutates the shared admission accounting:
after PreFilter every quota group of the shared tree keeps its Used
vector, its Request vector and its tracked-workload set, for every pod
and every outcome; only the Runtime field can be recomputed by the
RefreshRuntime call, and only Reserve adds to shared Used. -/
theorem preFilter_preserves_shared_used (args : PluginArgs)
    (rcalc : QuotaInfo → ResourceList) (gqm : GroupQuotaManager) (p : Pod)
    (n : String) :
    (lookupQuota (preFilter args rcalc gqm p).gqm n).map
        (fun q => (q.used, q.request, q.pods))
      = (lookupQuota gqm n).map (fun q => (q.used, q.request, q.pods)) := by
  rw [preFilter_gqm_eq]
  exact lookupQuota_refreshRuntime_map (fun q => (q.used, q.request, q.pods))
    (fun q rl => rfl) rcalc gqm _ n

/-- Claim C10: AddPod and RemovePod are Success no-ops leaving the
per-attempt used vector untouched whenever the candidate pod is a
reservation pod or is not tracked by the snapshot quota, and they
adjust the per-attempt used vector (add, resp. zero-floored subtract
of the pod request) exactly for tracked non-reservation pods. -/
theorem addRemovePod_noop_or_adjust (ctx : SchedContext) (p : Pod) :
    ((p.isReservePod = true ∨ isPodExist ctx.state.quotaInfo p = false) →
      addPod ctx p = (ctx, Status.success) ∧ removePod ctx p = (ctx, Status.success)) ∧
    (p.isReservePod = false → isPodExist ctx.state.quotaInfo p = true →
      (addPod ctx p).2 = Status.success ∧
      (addPod ctx p).1.state.used = addRL ctx.state.used p.request ∧
      (removePod ctx p).2 = Status.success ∧
      (removePod ctx p).1.state.used = subNonNegRL ctx.state.used p.request) := by
  constructor
  · rintro (h | h) <;> simp [addPod, removePod, h]
  · intro h1 h2
    simp [addPod, removePod, h1, h2]

/-- Witness for claim C10 at concrete inputs: a reservation pod and an
untracked pod are no-ops, the tracked pod pushes the used vector up. -/
theorem addRemovePod_noop_or_adjust_witness :
    (addPod ctxT podRes = (ctxT, Status.success) ∧
      removePod ctxT podRes = (ctxT, Status.success)) ∧
    (addPod ctxT pod5 = (ctxT, Status.success) ∧
      removePod ctxT pod5 = (ctxT, Status.success)) ∧
    ((addPod ctxT podW).1.state.used = addRL ctxT.state.used podW.request ∧
      (removePod ctxT podW).1.state.used = subNonNegRL ctxT.state.used podW.request) :=
  ⟨(addRemovePod_noop_or_adjust ctxT podRes).1 (Or.inl (by decide)),
    (addRemovePod_noop_or_adjust ctxT pod5).1 (Or.inr (by decide)),
    ((addRemovePod_noop_or_adjust ctxT podW).2 (by decide) (by decide)).2.1,
    ((addRemovePod_noop_or_adjust ctxT podW).2 (by decide) (by decide)).2.2.2⟩

/-- Claim C4 (amended): AddPod and RemovePod touch only the per-attempt
cycle state, never the shared tree; AddPod followed by RemovePod of
the same pod restores the per-attempt used vector whenever that vector
is componentwise non-negative; RemovePod followed by AddPod restores
it provided the used vector moreover dominates the pod request
componentwise, the zero floor of RemovePod otherwise losing the
clipped deficit. -/
theorem addRemovePod_reversible (ctx : SchedContext) (p : Pod)
    (hnn : RLNonneg ctx.state.used) :
    (addPod ctx p).1.gqm = ctx.gqm ∧ (removePod ctx p).1.gqm = ctx.gqm ∧
    (∀ r, lookupRL ((removePod (addPod ctx p).1 p).1.state.used) r
        = lookupRL ctx.state.used r) ∧
    (RLDominates ctx.state.used p.request →
      ∀ r, lookupRL ((addPod (removePod ctx p).1 p).1.state.used) r
        = lookupRL ctx.state.used r) := by
  by_cases hres : p.isReservePod
  · simp [addPod, removePod, hres]
  · by_cases hex : isPodExist ctx.state.quotaInfo p
    · refine ⟨by simp [addPod, hres, hex], by simp [removePod, hres, hex], ?_, ?_⟩
      · intro r
        simp [addPod, removePod, hres, hex, lookupRL_subNonNegRL, lookupRL_addRL]
        have := hnn.lookup r
        omega
      · intro hdom r
        simp [addPod, removePod, hres, hex, lookupRL_subNonNegRL, lookupRL_addRL]
        by_cases hr : r ∈ keysRL p.request
        · have := hdom r hr
          omega
        · have hz : lookupRL p.request r = 0 := lookupRL_eq_zero_of_not_mem hr
          have := hnn.lookup r
          rw [hz]
          omega
    · simp [addPod, removePod, hres, hex]

/-- Witness for claim C4 (amended) at a concrete context whose used
vector is non-negative and dominates the pod request. -/
theorem addRemovePod_reversible_witness :
    (addPod ctxT podW).1.gqm = ctxT.gqm ∧ (removePod ctxT podW).1.gqm = ctxT.gqm ∧
    (∀ r, lookupRL ((removePod (addPod ctxT podW).1 podW).1.state.used) r
        = lookupRL ctxT.state.used r) ∧
    (RLDominates ctxT.state.used podW.request →
      ∀ r, lookupRL ((addPod (removePod ctxT podW).1 podW).1.state.used) r
        = lookupRL ctxT.state.used r) :=
  addRemovePod_reversible ctxT podW (by decide)

/-- Counterexample for claim C4 as stated: from the reachable attempt
state with used cpu 0 and the tracked pod requesting cpu 5, RemovePod
clips at zero, so AddPod after it lands on cpu 5 instead of the prior
cpu 0 — the pair is not reversible in that order. -/
theorem removeAddPod_not_reversible_cx :
    lookupRL ((addPod (removePod ctxZero podW).1 podW).1.state.used) "cpu" = 5 ∧
    lookupRL ctxZero.state.used "cpu" = 0 := by
  decide

/-- One simulated accounting step of a scheduling attempt. -/
inductive SimOp where
  | addOp : Pod → SimOp
  | removeOp : Pod → SimOp
deriving DecidableEq

/-- The pod a simulated step is about. -/
def SimOp.pod : SimOp → Pod
  | .addOp p => p
  | .removeOp p => p

/-- Run a sequence of AddPod and RemovePod steps on an attempt. -/
def runSimOps (ctx : SchedContext) : List SimOp → SchedContext
  | [] => ctx
  | .addOp p :: rest => runSimOps (addPod ctx p).1 rest
  | .removeOp p :: rest => runSimOps (removePod ctx p).1 rest

/-- Claim C9: starting from a per-attempt state whose used vector is
componentwise non-negative, any sequence of AddPod and RemovePod steps
with non-negative pod requests keeps every dimension of the used
vector non-negative — RemovePod subtracts with a floor at zero. -/
theorem runSimOps_used_nonneg (ctx : SchedContext) (ops : List SimOp)
    (h0 : RLNonneg ctx.state.used)
    (hreq : ∀ op ∈ ops, RLNonneg op.pod.request) :
    RLNonneg (runSimOps ctx ops).state.used := by
  induction ops generalizing ctx with
  | nil => exact h0
  | cons op rest ih =>
    cases op with
    | addOp p =>
      refine ih (addPod ctx p).1 ?_ (fun o ho => hreq o (by simp [ho]))
      by_cases hres : p.isReservePod
      · simpa [addPod, hres] using h0
      · by_cases hex : isPodExist ctx.state.quotaInfo p
        · have hp : RLNonneg p.request := hreq (.addOp p) (by simp)
          simpa [addPod, hres, hex] using h0.addRL hp
        · simpa [addPod, hres, hex] using h0
    | removeOp p =>
      refine ih (removePod ctx p).1 ?_ (fun o ho => hreq o (by simp [ho]))
      by_cases hres : p.isReservePod
      · simpa [removePod, hres] using h0
      · by_cases hex : isPodExist ctx.state.quotaInfo p
        · simpa [removePod, hres, hex] using RLNonneg.subNonNegRL _ _
        · simpa [removePod, hres, hex] using h0

/-- Witness for claim C9 on a concrete attempt and step sequence. -/
theorem runSimOps_used_nonneg_witness :
    RLNonneg (runSimOps ctxT
      [.removeOp podW, .removeOp podW, .addOp podW, .removeOp podW]).state.used :=
  runSimOps_used_nonneg ctxT
    [.removeOp podW, .removeOp podW, .addOp podW, .removeOp podW]
    (by decide) (by decide)

/-- Claim C3 (amended): Reserve followed by Unreserve of the same
workload restores the tenant Used vector to its exact prior value in
every dimension, provided the workload was not already tracked by the
tenant and Used is componentwise non-negative; on an already tracked
workload Reserve is an idempotent no-op, so the pair strictly
subtracts the request instead. -/
theorem reserve_unreserve_roundtrip (gqm : GroupQuotaManager) (p : Pod)
    (qi : QuotaInfo)
    (hq : lookupQuota gqm (getPodAssociateQuotaName p) = some qi)
    (hnm : qi.pods.contains p.name = false)
    (hnn : RLNonneg qi.used) :
    ∀ r, (lookupQuota (unreserve (reserve gqm p) p) (getPodAssociateQuotaName p)).map
        (fun q => lookupRL q.used r) = some (lookupRL qi.used r) := by
  intro r
  have hmem : p.name ∉ qi.pods := by simpa using hnm
  unfold unreserve unreservePod reserve reservePod
  rw [lookupQuota_updateQuota_self, lookupQuota_updateQuota_self, hq]
  simp [Option.map, hmem, lookupRL_subNonNegRL, lookupRL_addRL]
  have := hnn.lookup r
  omega

/-- Witness for claim C3 (amended): reserving then unreserving the
untracked pod p5 on tenant t restores Used exactly. -/
theorem reserve_unreserve_roundtrip_witness :
    (lookupQuota (unreserve (reserve gqmT pod5) pod5)
        (getPodAssociateQuotaName pod5)).map (fun q => lookupRL q.used "cpu")
      = some (lookupRL quotaTFix.used "cpu") :=
  reserve_unreserve_roundtrip gqmT pod5 quotaTFix (by decide) (by decide) (by decide)
    "cpu"

/-- Counterexample for claim C3 as stated: workload w is already
tracked by tenant t in the prior state, so Reserve is an idempotent
no-op and Unreserve then drops Used from cpu 45 to cpu 40 instead of
restoring the prior value. -/
theorem reserve_unreserve_not_roundtrip_cx :
    (lookupQuota (unreserve (reserve gqmT podW) podW) "t").map
        (fun q => lookupRL q.used "cpu") = some 40 ∧
    (lookupQuota gqmT "t").map (fun q => lookupRL q.used "cpu") = some 45 := by
  decide

def argsLeaf : PluginArgs := ⟨false, false⟩

def argsParent : PluginArgs := ⟨true, false⟩

def argsStrict : PluginArgs := ⟨false, true⟩

def podX : Pod := ⟨"px", some "x", [("cpu", 1)], false⟩

/-- How PreFilter unfolds once quota resolution succeeds. -/
theorem preFilter_eq_of_some (args : PluginArgs) (rcalc : QuotaInfo → ResourceList)
    (gqm : GroupQuotaManager) (p : Pod) (qi : QuotaInfo)
    (hq : getQuotaInfoByName args.strictMode
        (refreshRuntime rcalc gqm (getPodAssociateQuotaName p))
        (getPodAssociateQuotaName p) = some qi) :
    preFilter args rcalc gqm p =
      ⟨refreshRuntime rcalc gqm (getPodAssociateQuotaName p),
        some (snapshotPostFilterState qi),
        if (rlExceeded (addRL p.request qi.used) qi.runtime).isEmpty then
          if args.enableCheckParentQuota then
            checkQuotaRecursive (refreshRuntime rcalc gqm (getPodAssociateQuotaName p))
              (getPodAssociateQuotaName p) p.request
          else Status.success
        else Status.unschedulable (rlExceeded (addRL p.request qi.used) qi.runtime)⟩ := by
  unfold preFilter
  dsimp only
  rw [hq]
  dsimp only [snapshotPostFilterState]
  split
  · split <;> rfl
  · rfl

/-- Claim C1 (amended): with ancestor checking disabled, PreFilter
forms the would-be usage as the snapshot Used plus the pod request,
and returns Unschedulable naming exactly the exceeded dimensions when
and only when that usage exceeds the snapshot Runtime in some
dimension Runtime declares; dimensions absent from Runtime are not
constrained (quotav1.LessThanOrEqual skips them), and a request
landing exactly on Runtime is accepted. -/
theorem preFilter_insufficient_iff (args : PluginArgs)
    (rcalc : QuotaInfo → ResourceList) (gqm : GroupQuotaManager) (p : Pod)
    (qi : QuotaInfo)
    (hflag : args.enableCheckParentQuota = false)
    (hq : getQuotaInfoByName args.strictMode
        (refreshRuntime rcalc gqm (getPodAssociateQuotaName p))
        (getPodAssociateQuotaName p) = some qi)
    (hrt : RLNonneg qi.runtime) :
    ((preFilter args rcalc gqm p).status
        = Status.unschedulable (rlExceeded (addRL p.request qi.used) qi.runtime)
      ↔ ∃ r ∈ keysRL qi.runtime,
          lookupRL qi.runtime r < lookupRL (addRL p.request qi.used) r) ∧
    ((preFilter args rcalc gqm p).status = Status.success
      ↔ ∀ r ∈ keysRL qi.runtime,
          lookupRL (addRL p.request qi.used) r ≤ lookupRL qi.runtime r) ∧
    (∀ r, r ∈ rlExceeded (addRL p.request qi.used) qi.runtime
      ↔ r ∈ keysRL qi.runtime ∧
          lookupRL qi.runtime r < lookupRL (addRL p.request qi.used) r) := by
  have hst : (preFilter args rcalc gqm p).status =
      if (rlExceeded (addRL p.request qi.used) qi.runtime).isEmpty then Status.success
      else Status.unschedulable (rlExceeded (addRL p.request qi.used) qi.runtime) := by
    rw [preFilter_eq_of_some args rcalc gqm p qi hq]
    dsimp only
    rw [hflag]
    simp
  refine ⟨?_, ?_, fun r => mem_rlExceeded hrt r⟩
  · rw [hst]
    by_cases hex : rlExceeded (addRL p.request qi.used) qi.runtime = []
    · rw [hex]
      simp only [List.isEmpty_nil, if_true]
      constructor
      · intro h
        exact Status.noConfusion h
      · rintro ⟨r, hr, hlt⟩
        have := (rlExceeded_eq_nil_iff hrt).mp hex r hr
        omega
    · have hbe : (rlExceeded (addRL p.request qi.used) qi.runtime).isEmpty = false := by
        cases h' : rlExceeded (addRL p.request qi.used) qi.runtime with
        | nil => exact absurd h' hex
        | cons a l => rfl
      rw [hbe]
      simp only [Bool.false_eq_true, if_false]
      constructor
      · intro _
        obtain ⟨r, hr⟩ := List.exists_mem_of_ne_nil _ hex
        obtain ⟨hkb, hlt⟩ := (mem_rlExceeded hrt r).mp hr
        exact ⟨r, hkb, hlt⟩
      · intro _
        trivial
  · rw [hst]
    by_cases hex : rlExceeded (addRL p.request qi.used) qi.runtime = []
    · rw [hex]
      simp only [List.isEmpty_nil, if_true]
      constructor
      · intro _
        exact (rlExceeded_eq_nil_iff hrt).mp hex
      · intro _
        trivial
    · have hbe : (rlExceeded (addRL p.request qi.used) qi.runtime).isEmpty = false := by
        cases h' : rlExceeded (addRL p.request qi.used) qi.runtime with
        | nil => exact absurd h' hex
        | cons a l => rfl
      rw [hbe]
      simp only [Bool.false_eq_true, if_false]
      constructor
      · intro h
        exact Status.noConfusion h
      · intro hall
        exact absurd ((rlExceeded_eq_nil_iff hrt).mpr hall) hex

/-- Witness for claim C1 (amended) at scenario C of the spec: tenant t
has Used cpu 45 and Runtime cpu 50; the 5 cpu request is accepted,
landing exactly on Runtime, and the 10 cpu request is rejected naming
cpu. -/
theorem preFilter_insufficient_iff_witness :
    ((preFilter argsLeaf idCalc gqmT pod5).status = Status.success
      ↔ ∀ r ∈ keysRL quotaTFix.runtime,
          lookupRL (addRL pod5.request quotaTFix.used) r
            ≤ lookupRL quotaTFix.runtime r) ∧
    ((preFilter argsLeaf idCalc gqmT pod10).status
        = Status.unschedulable
            (rlExceeded (addRL pod10.request quotaTFix.used) quotaTFix.runtime)
      ↔ ∃ r ∈ keysRL quotaTFix.runtime,
          lookupRL quotaTFix.runtime r
            < lookupRL (addRL pod10.request quotaTFix.used) r) :=
  ⟨(preFilter_insufficient_iff argsLeaf idCalc gqmT pod5 quotaTFix (by decide)
      (by decide) (by decide)).2.1,
    (preFilter_insufficient_iff argsLeaf idCalc gqmT pod10 quotaTFix (by decide)
      (by decide) (by decide)).1⟩

def podG : Pod := ⟨"pg", some "t", [("gpu", 1)], false⟩

/-- Counterexample for claim C1 as stated: the pod requests one gpu, a
dimension the tenant Runtime (cpu 50) does not declare; under the
zero-default vector semantics the would-be usage exceeds Runtime in
the gpu dimension (1 over 0), yet PreFilter accepts the pod, because
quotav1.LessThanOrEqual skips keys absent from Runtime. -/
theorem preFilter_undeclared_dimension_cx :
    (preFilter argsLeaf idCalc gqmT podG).status = Status.success ∧
    lookupRL quotaTFix.runtime "gpu"
      < lookupRL (addRL podG.request quotaTFix.used) "gpu" := by
  decide

/-- checkQuotaList succeeds exactly when every listed quota admits the
request on top of its Used. -/
theorem checkQuotaList_success_iff (req : ResourceList) (l : List QuotaInfo) :
    checkQuotaList req l = Status.success ↔
      ∀ q ∈ l, rlExceeded (addRL req q.used) q.runtime = [] := by
  induction l with
  | nil => simp [checkQuotaList]
  | cons q rest ih =>
    by_cases hex : rlExceeded (addRL req q.used) q.runtime = []
    · simp [checkQuotaList, hex, ih]
    · simp [checkQuotaList, hex]

/-- Claim C5: when EnableCheckParentQuota is enabled, admission repeats
the used-plus-request-against-Runtime check on each ancestor quota up
the tree — given the leaf check passes, PreFilter succeeds exactly
when every ancestor passes as well; when the flag is disabled, only
the leaf tenant quota is checked and PreFilter succeeds outright. -/
theorem preFilter_parent_checking (args : PluginArgs)
    (rcalc : QuotaInfo → ResourceList) (gqm : GroupQuotaManager) (p : Pod)
    (qi : QuotaInfo)
    (hq : getQuotaInfoByName args.strictMode
        (refreshRuntime rcalc gqm (getPodAssociateQuotaName p))
        (getPodAssociateQuotaName p) = some qi)
    (hleaf : rlExceeded (addRL p.request qi.used) qi.runtime = []) :
    (args.enableCheckParentQuota = true →
      ((preFilter args rcalc gqm p).status = Status.success ↔
        ∀ a ∈ ancestorsOf (refreshRuntime rcalc gqm (getPodAssociateQuotaName p))
            (getPodAssociateQuotaName p),
          rlExceeded (addRL p.request a.used) a.runtime = [])) ∧
    (args.enableCheckParentQuota = false →
      (preFilter args rcalc gqm p).status = Status.success) := by
  have hst := preFilter_eq_of_some args rcalc gqm p qi hq
  constructor
  · intro hflag
    rw [hst]
    dsimp only
    rw [hleaf, hflag]
    simp only [List.isEmpty_nil, if_true]
    exact checkQuotaList_success_iff p.request _
  · intro hflag
    rw [hst]
    dsimp only
    rw [hleaf, hflag]
    simp

/-- Witness for claim C5: on the concrete tree, with the flag enabled
success is equivalent to every ancestor fitting, and with the flag
disabled the same pod is accepted outright. -/
theorem preFilter_parent_checking_witness :
    ((preFilter argsParent idCalc gqmT pod5).status = Status.success ↔
      ∀ a ∈ ancestorsOf (refreshRuntime idCalc gqmT
          (getPodAssociateQuotaName pod5)) (getPodAssociateQuotaName pod5),
        rlExceeded (addRL pod5.request a.used) a.runtime = []) ∧
    (preFilter argsLeaf idCalc gqmT pod5).status = Status.success :=
  ⟨(preFilter_parent_checking argsParent idCalc gqmT pod5 quotaTFix (by decide)
      (by decide)).1 rfl,
    (preFilter_parent_checking argsLeaf idCalc gqmT pod5 quotaTFix (by decide)
      (by decide)).2 rfl⟩

/-- Claim C6: an admission attempt referencing an unknown tenant falls
back to the default tenant rather than failing, unless strict mode is
configured: GetQuotaInfoByName resolves an absent name to the default
group and returns nothing only under strict mode; PreFilter fails with
an Error status only when resolution returns nothing, and with the
fallback in effect the attempt proceeds against the resolved (default)
tenant snapshot. -/
theorem quotaNotFound_fallback (args : PluginArgs)
    (rcalc : QuotaInfo → ResourceList) (gqm : GroupQuotaManager) (p : Pod)
    (n : String) (qd : QuotaInfo)
    (habs : lookupQuota gqm n = none) :
    (getQuotaInfoByName false gqm n = lookupQuota gqm "default") ∧
    (getQuotaInfoByName true gqm n = none) ∧
    (getQuotaInfoByName args.strictMode
        (refreshRuntime rcalc gqm (getPodAssociateQuotaName p))
        (getPodAssociateQuotaName p) = none →
      (preFilter args rcalc gqm p).status
        = Status.statusError "Could not find the specified ElasticQuota") ∧
    (getQuotaInfoByName args.strictMode
        (refreshRuntime rcalc gqm (getPodAssociateQuotaName p))
        (getPodAssociateQuotaName p) = some qd →
      (preFilter args rcalc gqm p).state = some (snapshotPostFilterState qd)) := by
  refine ⟨by simp [getQuotaInfoByName, habs], by simp [getQuotaInfoByName, habs],
    ?_, ?_⟩
  · intro hnone
    unfold preFilter
    dsimp only
    rw [hnone]
  · intro hsome
    rw [preFilter_eq_of_some args rcalc gqm p qd hsome]

/-- Witness for claim C6: the name x is absent from the concrete tree;
without strict mode resolution lands on the default group and the
attempt proceeds against its snapshot, with strict mode PreFilter
fails with an Error status. -/
theorem quotaNotFound_fallback_witness :
    (getQuotaInfoByName false gqmT "x" = lookupQuota gqmT "default") ∧
    (getQuotaInfoByName true gqmT "x" = none) ∧
    ((preFilter argsStrict idCalc gqmT podX).status
      = Status.statusError "Could not find the specified ElasticQuota") ∧
    ((preFilter argsLeaf idCalc gqmT podX).state
      = some (snapshotPostFilterState quotaDefaultFix)) :=
  ⟨(quotaNotFound_fallback argsLeaf idCalc gqmT podX "x" quotaDefaultFix
      (by decide)).1,
    (quotaNotFound_fallback argsStrict idCalc gqmT podX "x" quotaDefaultFix
      (by decide)).2.1,
    (quotaNotFound_fallback argsStrict idCalc gqmT podX "x" quotaDefaultFix
      (by decide)).2.2.1 (by decide),
    (quotaNotFound_fallback argsLeaf idCalc gqmT podX "x" quotaDefaultFix
      (by decide)).2.2.2 (by decide)⟩

/-- Whether the quota named n lies in the subtree rooted at root: root
appears on the parent chain of n. -/
def inQuotaSubtree (gqm : GroupQuotaManager) (root n : String) : Bool :=
  (quotaNameChain gqm (gqm.quotas.length + 1) n).contains root

/-- Modelled from the spec: the preemption victim search triggered by
PostFilter on QuotaInsufficient (the selection loop lives in the
scheduler framework preemption evaluator and in plugin code not under
src) is restricted to candidate victims belonging to the same tenant
subtree as the pod being scheduled. -/
def selectPreemptionVictims (gqm : GroupQuotaManager) (p : Pod)
    (candidates : List Pod) : List Pod :=
  candidates.filter (fun v =>
    inQuotaSubtree gqm (getPodAssociateQuotaName p) (getPodAssociateQuotaName v))

/-- Claim C7: every victim the PostFilter preemption search selects
belongs to the tenant subtree of the pod being scheduled, and a
candidate whose quota lies outside that subtree is never selected —
one tenant never loses workloads to admit another tenant's pod. -/
theorem preemption_same_subtree (gqm : GroupQuotaManager) (p : Pod)
    (cands : List Pod) (v : Pod)
    (hv : v ∈ selectPreemptionVictims gqm p cands) :
    inQuotaSubtree gqm (getPodAssociateQuotaName p) (getPodAssociateQuotaName v)
        = true ∧
    ∀ w, inQuotaSubtree gqm (getPodAssociateQuotaName p)
        (getPodAssociateQuotaName w) = false →
      w ∉ selectPreemptionVictims gqm p cands := by
  constructor
  · exact (List.mem_filter.mp hv).2
  · intro w hfalse hmem
    have hmem2 := (List.mem_filter.mp hmem).2
    rw [hfalse] at hmem2
    exact Bool.noConfusion hmem2

def podD : Pod := ⟨"pd", some "default", [("cpu", 1)], false⟩

/-- Witness for claim C7: scheduling a pod of tenant t, the candidate
of tenant t is selected and any candidate outside the t subtree (such
as one of the default tenant) never is. -/
theorem preemption_same_subtree_witness :
    inQuotaSubtree gqmT (getPodAssociateQuotaName podW)
        (getPodAssociateQuotaName pod5) = true ∧
    ∀ w, inQuotaSubtree gqmT (getPodAssociateQuotaName podW)
        (getPodAssociateQuotaName w) = false →
      w ∉ selectPreemptionVictims gqmT podW [pod5, podD] :=
  preemption_same_subtree gqmT podW [pod5, podD] pod5 (by decide)

/-- A running workload considered by the revoke controller. -/
structure Workload where
  name : String
  quotaName : String
  priority : Int
  creationTime : Int
deriving DecidableEq

/-- Victim order of the spec: lowest priority first, most recently
created (larger creation timestamp) first among equal priorities. -/
def victimBefore (a b : Workload) : Bool :=
  decide (a.priority < b.priority) ||
    (a.priority == b.priority && decide (b.creationTime ≤ a.creationTime))

/-- Insertion step of the victim sort. -/
def insertVictim (x : Workload) : List Workload → List Workload
  | [] => [x]
  | y :: ys => if victimBefore x y then x :: y :: ys else y :: insertVictim x ys

/-- Sort workloads into eviction order. -/
def sortVictims (l : List Workload) : List Workload :=
  l.foldr insertVictim []

theorem mem_insertVictim (x a : Workload) (l : List Workload) :
    a ∈ insertVictim x l ↔ a = x ∨ a ∈ l := by
  induction l with
  | nil => simp [insertVictim]
  | cons y ys ih =>
    by_cases h : victimBefore x y
    · simp [insertVictim, h]
    · simp only [insertVictim, h, Bool.false_eq_true, if_false, List.mem_cons, ih]
      tauto

theorem mem_sortVictims (a : Workload) (l : List Workload) :
    a ∈ sortVictims l ↔ a ∈ l := by
  induction l with
  | nil => simp [sortVictims]
  | cons y ys ih =>
    show a ∈ insertVictim y (sortVictims ys) ↔ _
    rw [mem_insertVictim, ih]
    simp [List.mem_cons]

/-- The grace-period bookkeeping of the revoke controller: for each
over-limit quota group, when it was first seen over its Runtime. -/
structure RevokeState where
  overSince : List (String × Int)
deriving DecidableEq

/-- First-seen-over-limit timestamp of a quota group, if tracked. -/
def lookupOver (rs : RevokeState) (q : String) : Option Int :=
  match rs.overSince.find? (fun kv => kv.1 == q) with
  | some kv => some kv.2
  | none => none

/-- Whether a quota group is over its allowance: Used exceeds Runtime
in some dimension. -/
def quotaOverLimit (q : QuotaInfo) : Bool :=
  !(rlExceeded q.used q.runtime).isEmpty

/-- The refreshed first-seen bookkeeping of a tick: over-limit groups
keep (or acquire) their first-seen timestamp, groups back within
allowance are dropped. -/
def refreshOverSince (gqm : GroupQuotaManager) (rs : RevokeState) (now : Int) :
    RevokeState :=
  ⟨gqm.quotas.filterMap (fun kv =>
    if quotaOverLimit kv.2 then some (kv.1, (lookupOver rs kv.1).getD now)
    else none)⟩

/-- Modelled from the spec: one tick of the QuotaOverUsedRevokeController
(not under src; plugin.go only constructs it from DelayEvictTime and
RevokePodInterval). The tick refreshes the first-seen-over-limit
timestamps, and for each group over its Runtime for longer than the
grace period selects its workloads, lowest priority first and most
recently created first, issuing at most the per-tick rate limit of
evictions. -/
def revokeTick (gracePeriod : Int) (tickLimit : Nat) (gqm : GroupQuotaManager)
    (workloads : List Workload) (rs : RevokeState) (now : Int) :
    RevokeState × List Workload :=
  let rsNew := refreshOverSince gqm rs now
  let eligible := fun (n : String) =>
    match lookupOver rsNew n with
    | some t => decide (gracePeriod < now - t)
    | none => false
  let victims := (gqm.quotas.filter (fun kv => eligible kv.1)).foldr
    (fun kv acc =>
      sortVictims (workloads.filter (fun w => w.quotaName == kv.1)) ++ acc) []
  (rsNew, victims.take tickLimit)

theorem mem_foldr_append {β : Type} (f : β → List Workload) (l : List β)
    (a : Workload) :
    a ∈ l.foldr (fun x acc => f x ++ acc) [] ↔ ∃ x ∈ l, a ∈ f x := by
  induction l with
  | nil => simp
  | cons x xs ih => simp [ih]

/-- A tracked first-seen entry always comes from a group of the tree
that is over its limit. -/
theorem lookupOver_refreshOverSince (gqm : GroupQuotaManager) (rs : RevokeState)
    (now : Int) (q : String) (t : Int)
    (h : lookupOver (refreshOverSince gqm rs now) q = some t) :
    ∃ qi, (q, qi) ∈ gqm.quotas ∧ quotaOverLimit qi = true := by
  unfold lookupOver refreshOverSince at h
  cases hf : (gqm.quotas.filterMap (fun kv =>
      if quotaOverLimit kv.2 then some (kv.1, (lookupOver rs kv.1).getD now)
      else none)).find? (fun kv => kv.1 == q) with
  | none => rw [hf] at h; exact Option.noConfusion h
  | some kv =>
    have hmem := List.mem_of_find?_eq_some hf
    have hpred := List.find?_some hf
    have hkq : kv.1 = q := by simpa using hpred
    obtain ⟨kv', hkv', heq⟩ := List.mem_filterMap.mp hmem
    by_cases hover : quotaOverLimit kv'.2
    · rw [if_pos hover] at heq
      have h1 : kv'.1 = kv.1 := congrArg Prod.fst (Option.some.inj heq)
      refine ⟨kv'.2, ?_, hover⟩
      have : kv' = (q, kv'.2) := by
        rw [← hkq, ← h1]
      rw [← this]
      exact hkv'
    · rw [if_neg hover] at heq
      exact Option.noConfusion heq

/-- Claim C8: a revoke-controller tick never issues more evictions
than its per-tick rate limit, and every eviction it issues targets a
workload of a quota group whose Used has exceeded its Runtime since a
first-seen timestamp more than the grace period before now. -/
theorem revokeTick_rate_limited (gracePeriod : Int) (tickLimit : Nat)
    (gqm : GroupQuotaManager) (workloads : List Workload) (rs : RevokeState)
    (now : Int) :
    (revokeTick gracePeriod tickLimit gqm workloads rs now).2.length ≤ tickLimit ∧
    ∀ w ∈ (revokeTick gracePeriod tickLimit gqm workloads rs now).2,
      ∃ t, lookupOver (refreshOverSince gqm rs now) w.quotaName = some t ∧
        gracePeriod < now - t ∧
        ∃ qi, (w.quotaName, qi) ∈ gqm.quotas ∧ quotaOverLimit qi = true := by
  constructor
  · show (List.take tickLimit _).length ≤ tickLimit
    rw [List.length_take]
    exact min_le_left _ _
  · intro w hw
    have hw2 : w ∈ (gqm.quotas.filter (fun kv =>
        match lookupOver (refreshOverSince gqm rs now) kv.1 with
        | some t => decide (gracePeriod < now - t)
        | none => false)).foldr
        (fun kv acc =>
          sortVictims (workloads.filter (fun w => w.quotaName == kv.1)) ++ acc) [] :=
      List.mem_of_mem_take hw
    obtain ⟨kv, hkv, hwin⟩ :=
      (mem_foldr_append (fun (kv : String × QuotaInfo) =>
        sortVictims (workloads.filter (fun w => w.quotaName == kv.1))) _ w).mp hw2
    have hkv1 := (List.mem_filter.mp hkv).1
    have helig := (List.mem_filter.mp hkv).2
    have hwq : w.quotaName = kv.1 := by
      have := (List.mem_filter.mp ((mem_sortVictims w _).mp hwin)).2
      simpa using this
    cases hlo : lookupOver (refreshOverSince gqm rs now) kv.1 with
    | none => rw [hlo] at helig; exact Bool.noConfusion helig
    | some t =>
      rw [hlo] at helig
      refine ⟨t, by rw [hwq]; exact hlo, of_decide_eq_true helig, ?_⟩
      rw [hwq]
      exact lookupOver_refreshOverSince gqm rs now kv.1 t hlo

def quotaOverFix : QuotaInfo :=
  ⟨"o", some "root", [], [("cpu", 100)], [("cpu", 60)], [("cpu", 60)], [("cpu", 50)], []⟩

def gqmOver : GroupQuotaManager := ⟨[("o", quotaOverFix)]⟩

def wl1 : Workload := ⟨"w1", "o", 1, 3⟩

def wl2 : Workload := ⟨"w2", "o", 0, 5⟩

def rsOver : RevokeState := ⟨[("o", 0)]⟩

/-- Witness for claim C8: the group o has been over limit since time 0;
at time 100 with grace period 10 and rate limit 1, the tick evicts at
most one workload and the evicted lowest-priority workload w2 belongs
to the over-limit group. -/
theorem revokeTick_rate_limited_witness :
    (revokeTick 10 1 gqmOver [wl1, wl2] rsOver 100).2.length ≤ 1 ∧
    (∃ t, lookupOver (refreshOverSince gqmOver rsOver 100) wl2.quotaName = some t ∧
      (10 : Int) < 100 - t ∧
      ∃ qi, (wl2.quotaName, qi) ∈ gqmOver.quotas ∧ quotaOverLimit qi = true) :=
  ⟨(revokeTick_rate_limited 10 1 gqmOver [wl1, wl2] rsOver 100).1,
    (revokeTick_rate_limited 10 1 gqmOver [wl1, wl2] rsOver 100).2 wl2 (by decide)⟩

end ElasticQuota
